import Mathlib

/-!
Verification of the benchmark statistics engine of tenantsdb-bench.

The development shallowly embeds the core of the repository:

* `ComputeStats`, `pct` — the statistics engine (src/bench/stats.go);
* `MedianStats`, `SteadyState` — the multi-run controller primitives
  (src/bench/stats.go, consumed by `RunMultiple` in src/bench/printer.go);
* `PrintIsolationVerdict` — the classification branch of `PrintIsolation`
  (src/bench/printer.go);
* `pgRunQueriesResults` / `pgRunQueries` — the count-bounded worker layout
  of `pgRunQueries` (src/postgres.go) and `pg.RunQueries`.

Modelling conventions, stated once:

* Go `time.Duration` is `int64`; latencies are modelled as `ℤ` (no sample in
  the claims overflows 64 bits, so the wrap-around is irrelevant and omitted).
* Go `float64` values that the claims inspect only through exact predicates
  are modelled as `ℚ`; the one place where IEEE-754 division by zero matters
  (`QPS`), the value is modelled by `GoFloat`, which keeps the IEEE special
  values, and `goFloatDiv` mirrors IEEE division of exactly represented
  operands.  `math.Ceil(p/100*float64(n))` for the percentile arguments
  `p ∈ {50, 75, 90, 95, 99}` is exact in float64 for every list length `n`
  arising here, so it is embedded as the exact rational ceiling.
* `sort.Slice` with a `<` comparator produces some ascending permutation;
  it is embedded as `List.insertionSort` with the corresponding `≤`, which
  yields an ascending permutation as well (for `ℤ` keys the sorted list of a
  multiset is unique, so the embedding is exact there).
* The concurrent workers of `pgRunQueries` write disjoint index ranges of a
  preallocated slice that are fixed at dispatch time, so the final slice is a
  pure function of the per-index operation outcomes; `lat idx` abstracts the
  outcome of the operation recorded at global index `idx`.  Go's `make`
  zero-initialises the slice, hence the `default` entries.
* Fallible code is modelled with `Option`: `MedianStats` panics on an empty
  slice in Go (index out of range), so its model returns `none` there.
-/

/-- One sample, src/bench/types.go `QueryResult`: elapsed latency and an
optional error (the issue timestamp is never read by the statistics engine
and is omitted). -/
structure QueryResult where
  Duration : ℤ
  Err : Option String
deriving DecidableEq, Repr

/-- Go's zero value for `QueryResult`. -/
instance : Inhabited QueryResult := ⟨⟨0, none⟩⟩

/-- The value space of a Go `float64` restricted to exactly representable
payloads: a finite rational or one of the IEEE-754 special values. -/
inductive GoFloat where
  | finite (q : ℚ)
  | posInf
  | negInf
  | nan
deriving DecidableEq, Repr

/-- Go's zero value for `float64` is `0.0`. -/
instance : Inhabited GoFloat := ⟨.finite 0⟩

/-- IEEE-754 division of exactly represented operands: Go's `x / y` on
`float64` yields `±Inf` for a nonzero numerator over zero and `NaN` for
`0/0`; it never traps. -/
def goFloatDiv (num den : ℚ) : GoFloat :=
  if den = 0 then
    if num = 0 then .nan else if 0 < num then .posInf else .negInf
  else .finite (num / den)

/-- Aggregate of one run, src/bench/types.go `BenchStats`. -/
structure BenchStats where
  Label : String
  Total : ℕ
  Errors : ℕ
  Duration : ℤ
  QPS : GoFloat
  LatencyAvg : ℤ
  LatencyMin : ℤ
  LatencyMax : ℤ
  LatencyP50 : ℤ
  LatencyP75 : ℤ
  LatencyP90 : ℤ
  LatencyP95 : ℤ
  LatencyP99 : ℤ
deriving DecidableEq, Repr

/-- Go's zero value for `BenchStats`. -/
instance : Inhabited BenchStats :=
  ⟨⟨"", 0, 0, 0, default, 0, 0, 0, 0, 0, 0, 0, 0⟩⟩

/-- Run configuration, src/bench/types.go `BenchParams` (count-bounded mode:
the `Duration`/`Runs` fields play no role in the embedded code paths). -/
structure BenchParams where
  Queries : ℕ
  Concurrency : ℕ
  Warmup : ℕ
  SeedRows : ℕ
deriving DecidableEq, Repr

/-- Go `time.Duration.Seconds()`: the duration in nanoseconds divided by
`1e9`.  Zero exactly when the duration is zero. -/
def durationSeconds (d : ℤ) : ℚ := (d : ℚ) / 1000000000

/-- The in-place `sort.Slice(durations, <)` of `ComputeStats`: an ascending
sort of the latency list. -/
def sortDurations (l : List ℤ) : List ℤ := l.insertionSort (· ≤ ·)

/-- The index computed by `pct` (src/bench/stats.go:78): the float64 ceiling
`int(math.Ceil(p/100*float64(n))) - 1`, clamped below by `0` and then above
by `n-1`, exactly as the two `if` statements do. -/
def pctIdx (p : ℚ) (n : ℕ) : ℤ :=
  min (max (⌈p / 100 * (n : ℚ)⌉ - 1) 0) ((n : ℤ) - 1)

/-- src/bench/stats.go `pct`: nearest-rank percentile selection on an
ascending-sorted list; returns `0` on an empty list. -/
def pct (sorted : List ℤ) (p : ℚ) : ℤ :=
  if sorted.length = 0 then 0
  else sorted.getD (pctIdx p sorted.length).toNat 0

/-- The list of successful latencies that the `for` loop of `ComputeStats`
accumulates into `durations`, in sample order: every sample whose `Err` is
`nil` contributes its `Duration`, errored samples are skipped. -/
def succDurations (results : List QueryResult) : List ℤ :=
  (results.filter (fun r => r.Err.isNone)).map (fun r => r.Duration)

/-- src/bench/stats.go `ComputeStats`: partition the samples into errored and
successful, and if any sample succeeded, sort the successful latencies and
fill the aggregate fields.  `LatencyAvg` uses Go's truncating `int64`
division; `QPS` is the IEEE float64 division `len(durations) /
totalDuration.Seconds()` (no zero guard in the source). -/
def ComputeStats (label : String) (results : List QueryResult) (totalDuration : ℤ) : BenchStats :=
  let durations := succDurations results
  let errors := (results.filter (fun r => r.Err.isSome)).length
  if durations.length = 0 then
    { Label := label, Total := results.length, Errors := errors,
      Duration := totalDuration, QPS := default, LatencyAvg := 0,
      LatencyMin := 0, LatencyMax := 0, LatencyP50 := 0, LatencyP75 := 0,
      LatencyP90 := 0, LatencyP95 := 0, LatencyP99 := 0 }
  else
    let sorted := sortDurations durations
    { Label := label, Total := results.length, Errors := errors,
      Duration := totalDuration,
      QPS := goFloatDiv (durations.length : ℚ) (durationSeconds totalDuration),
      LatencyAvg := Int.tdiv sorted.sum (sorted.length : ℤ),
      LatencyMin := sorted.getD 0 0,
      LatencyMax := sorted.getD (sorted.length - 1) 0,
      LatencyP50 := pct sorted 50,
      LatencyP75 := pct sorted 75,
      LatencyP90 := pct sorted 90,
      LatencyP95 := pct sorted 95,
      LatencyP99 := pct sorted 99 }

/-- The in-place `sort.Slice(runs, by LatencyP50)` of `MedianStats`: an
ascending-by-p50 permutation of the run list. -/
def sortByP50 (runs : List BenchStats) : List BenchStats :=
  runs.insertionSort (fun a b => a.LatencyP50 ≤ b.LatencyP50)

instance : IsTotal BenchStats (fun a b => a.LatencyP50 ≤ b.LatencyP50) :=
  ⟨fun a b => le_total a.LatencyP50 b.LatencyP50⟩

instance : IsTrans BenchStats (fun a b => a.LatencyP50 ≤ b.LatencyP50) :=
  ⟨fun _ _ _ hab hbc => le_trans hab hbc⟩

/-- src/bench/stats.go `MedianStats`: a single run is returned unchanged;
otherwise the runs are sorted by p50 in place and the element at index
`len/2` is returned.  On the empty slice Go's `runs[0]` panics, which the
model maps to `none`. -/
def MedianStats (runs : List BenchStats) : Option BenchStats :=
  if runs.length = 1 then runs.head?
  else (sortByP50 runs)[runs.length / 2]?

/-- The content of the caller's slice after `MedianStats` returns: Go's
`sort.Slice` mutates the backing array in place, so any slice of length ≥ 2
is left sorted by p50 (a single-element slice is returned before sorting). -/
def MedianStatsEffect (runs : List BenchStats) : List BenchStats :=
  if runs.length = 1 then runs else sortByP50 runs

/-- The per-run rows that `RunMultiple` (src/bench/printer.go:131) prints in
its post-selection summary table: it iterates `allRuns` after the
`MedianStats(allRuns)` call, hence over the mutated, sorted slice. -/
def RunMultipleSummaryRows (allRuns : List BenchStats) : List BenchStats :=
  MedianStatsEffect allRuns

/-- The rational payload of a finite `GoFloat` (the QPS values the
steady-state check reads; junk value `0` on the special values, which the
theorems exclude by hypothesis). -/
def ratOfFloat : GoFloat → ℚ
  | .finite q => q
  | _ => 0

/-- src/bench/stats.go `SteadyState`: fewer than two runs are vacuously
steady; a zero float mean returns `(false, 0)`; otherwise the maximal
relative QPS deviation is accumulated exactly as the `if dev > maxDev`
loop does, and steadiness is `maxDev ≤ tolerance`. -/
def SteadyState (runs : List BenchStats) (tolerance : ℚ) : Bool × ℚ :=
  if runs.length < 2 then (true, 0)
  else
    let qs := runs.map fun r => ratOfFloat r.QPS
    let mean := qs.sum / (runs.length : ℚ)
    if mean = 0 then (false, 0)
    else
      let maxDev := (qs.map fun q => |q - mean| / mean).foldl max 0
      (decide (maxDev ≤ tolerance), maxDev)

/-- Mean QPS across runs, as `SteadyState` computes it. -/
def meanQPS (runs : List BenchStats) : ℚ :=
  ((runs.map fun r => ratOfFloat r.QPS).sum) / (runs.length : ℚ)

/-- Maximal relative QPS deviation across runs, as `SteadyState` computes
it. -/
def maxRelDev (runs : List BenchStats) : ℚ :=
  ((runs.map fun r => ratOfFloat r.QPS).map
    fun q => |q - meanQPS runs| / meanQPS runs).foldl max 0

/-- The classification branch of `PrintIsolation` (src/bench/printer.go:66):
`p50Diff := float64(noise.p50 - baseline.p50) / float64(baseline.p50) * 100`,
then fixed thresholds at `20` and `50` percent. -/
def PrintIsolationVerdict (baseline noise : BenchStats) : String :=
  let p50Diff : ℚ :=
    ((noise.LatencyP50 - baseline.LatencyP50 : ℤ) : ℚ) / (baseline.LatencyP50 : ℚ) * 100
  if p50Diff < 20 then "ISOLATED"
  else if p50Diff < 50 then "MODERATE IMPACT"
  else "NOISY NEIGHBOR DETECTED"

/-- The result slice of `pgRunQueries` (src/postgres.go:78) after all workers
join, in count-bounded mode: `results := make([]QueryResult, Queries)` is
zero-initialised; worker `w < Concurrency` writes indices `w*qpw + i` for
`i < qpw` with `qpw := Queries / Concurrency` (Go integer division), so the
indices below `Concurrency * qpw` hold recorded samples and the remainder
keeps the zero value.  `lat idx` abstracts the recorded outcome of the
operation at global index `idx`.  (With `Concurrency = 0` the Go source
panics on the division; every theorem below assumes `1 ≤ Concurrency`.) -/
def pgRunQueriesResults (params : BenchParams) (lat : ℕ → QueryResult) : List QueryResult :=
  (List.range params.Queries).map fun idx =>
    if idx < params.Concurrency * (params.Queries / params.Concurrency) then lat idx
    else default

/-- The block of samples recorded by worker `w` of `pgRunQueries`, in the
order of its private index range `[w*qpw, (w+1)*qpw)`. -/
def pgWorkerResults (params : BenchParams) (lat : ℕ → QueryResult) (w : ℕ) : List QueryResult :=
  (List.range (params.Queries / params.Concurrency)).map fun i =>
    lat (w * (params.Queries / params.Concurrency) + i)

/-- src/postgres.go `pgRunQueries` (and identically `pg.RunQueries`,
src/unnamed/part_008): the whole preallocated result slice is handed to
`ComputeStats` together with the measured wall-clock duration. -/
def pgRunQueries (params : BenchParams) (lat : ℕ → QueryResult) (label : String)
    (totalDuration : ℤ) : BenchStats :=
  ComputeStats label (pgRunQueriesResults params lat) totalDuration

/-! ### Helper lemmas about the sorting embeddings -/

theorem sortDurations_sorted (l : List ℤ) : (sortDurations l).Sorted (· ≤ ·) :=
  List.sorted_insertionSort _ l

theorem sortDurations_perm (l : List ℤ) : (sortDurations l).Perm l :=
  List.perm_insertionSort _ l

theorem sortDurations_length (l : List ℤ) : (sortDurations l).length = l.length :=
  (sortDurations_perm l).length_eq

theorem sortByP50_sorted (runs : List BenchStats) :
    (sortByP50 runs).Sorted (fun a b => a.LatencyP50 ≤ b.LatencyP50) :=
  List.sorted_insertionSort _ runs

theorem sortByP50_perm (runs : List BenchStats) : (sortByP50 runs).Perm runs :=
  List.perm_insertionSort _ runs

theorem sortByP50_length (runs : List BenchStats) :
    (sortByP50 runs).length = runs.length :=
  (sortByP50_perm runs).length_eq

theorem map_p50_sortByP50 (runs : List BenchStats) :
    (sortByP50 runs).map (fun r => r.LatencyP50) =
      (runs.map (fun r => r.LatencyP50)).insertionSort (· ≤ ·) := by
  apply List.eq_of_perm_of_sorted (r := (· ≤ · : ℤ → ℤ → Prop))
  · exact ((sortByP50_perm runs).map _).trans (List.perm_insertionSort _ _).symm
  · exact List.Pairwise.map _ (fun a b h => h) (sortByP50_sorted runs)
  · exact List.sorted_insertionSort _ _

theorem sorted_getD_mono {l : List ℤ} (h : l.Sorted (· ≤ ·)) {i j : ℕ}
    (hij : i ≤ j) (hj : j < l.length) : l.getD i 0 ≤ l.getD j 0 := by
  have hi : i < l.length := lt_of_le_of_lt hij hj
  rw [List.getD_eq_getElem?_getD, List.getD_eq_getElem?_getD,
    List.getElem?_eq_getElem hi, List.getElem?_eq_getElem hj]
  exact h.rel_get_of_le (a := ⟨i, hi⟩) (b := ⟨j, hj⟩) hij

/-! ### Helper lemmas about the percentile index -/

theorem ceil_div_hundred (a : ℕ) : ⌈(a : ℚ) / 100⌉ = ((a + 99) / 100 : ℕ) := by
  have h3 : a ≤ 100 * ((a + 99) / 100) := by omega
  have h4 : 100 * ((a + 99) / 100) < a + 100 := by omega
  generalize hd : (a + 99) / 100 = d at h3 h4
  have h3q : (a : ℚ) ≤ 100 * (d : ℚ) := by exact_mod_cast h3
  have h4q : 100 * (d : ℚ) < (a : ℚ) + 100 := by exact_mod_cast h4
  rw [Int.ceil_eq_iff]
  constructor
  · push_cast
    rw [lt_div_iff₀ (by norm_num : (0:ℚ) < 100)]
    linarith
  · push_cast
    rw [div_le_iff₀ (by norm_num : (0:ℚ) < 100)]
    linarith

theorem pctIdx_nonneg (p : ℚ) (n : ℕ) (hn : 1 ≤ n) : 0 ≤ pctIdx p n := by
  have h1 : (1 : ℤ) ≤ (n : ℤ) := by exact_mod_cast hn
  exact le_min (le_max_right _ 0) (by omega)

theorem pctIdx_le_sub_one (p : ℚ) (n : ℕ) : pctIdx p n ≤ (n : ℤ) - 1 :=
  min_le_right _ _

theorem pctIdx_toNat_lt (p : ℚ) (n : ℕ) (hn : 1 ≤ n) : (pctIdx p n).toNat < n := by
  have h0 := pctIdx_nonneg p n hn
  have h1 := pctIdx_le_sub_one p n
  have h2 : (1 : ℤ) ≤ (n : ℤ) := by exact_mod_cast hn
  omega

theorem pctIdx_mono {p q : ℚ} (n : ℕ) (hp : 0 ≤ p) (hpq : p ≤ q) :
    pctIdx p n ≤ pctIdx q n := by
  have hceil : ⌈p / 100 * (n : ℚ)⌉ ≤ ⌈q / 100 * (n : ℚ)⌉ := by
    apply Int.ceil_le_ceil
    apply mul_le_mul_of_nonneg_right _ (by positivity)
    exact div_le_div_of_nonneg_right hpq (by norm_num)
  unfold pctIdx
  exact min_le_min (max_le_max (by omega) le_rfl) le_rfl

theorem pct_mem {l : List ℤ} (p : ℚ) (h : l ≠ []) : pct l p ∈ l := by
  have hn : 1 ≤ l.length := List.length_pos.mpr h
  rw [pct, if_neg (by omega)]
  have hk := pctIdx_toNat_lt p l.length hn
  rw [List.getD_eq_getElem?_getD, List.getElem?_eq_getElem hk]
  exact List.getElem_mem hk

theorem pct_le_pct {l : List ℤ} (hs : l.Sorted (· ≤ ·)) (h : l ≠ [])
    {p q : ℚ} (hp : 0 ≤ p) (hpq : p ≤ q) : pct l p ≤ pct l q := by
  have hn : 1 ≤ l.length := List.length_pos.mpr h
  rw [pct, pct, if_neg (by omega), if_neg (by omega)]
  apply sorted_getD_mono hs
  · exact Int.toNat_le_toNat (pctIdx_mono l.length hp hpq)
  · exact pctIdx_toNat_lt q l.length hn

theorem getD_zero_le_pct {l : List ℤ} (hs : l.Sorted (· ≤ ·)) (h : l ≠ [])
    (p : ℚ) : l.getD 0 0 ≤ pct l p := by
  have hn : 1 ≤ l.length := List.length_pos.mpr h
  rw [pct, if_neg (by omega)]
  exact sorted_getD_mono hs (Nat.zero_le _) (pctIdx_toNat_lt p l.length hn)

theorem pct_le_getD_last {l : List ℤ} (hs : l.Sorted (· ≤ ·)) (h : l ≠ [])
    (p : ℚ) : pct l p ≤ l.getD (l.length - 1) 0 := by
  have hn : 1 ≤ l.length := List.length_pos.mpr h
  rw [pct, if_neg (by omega)]
  apply sorted_getD_mono hs
  · have h0 := pctIdx_nonneg p l.length hn
    have h1 := pctIdx_le_sub_one p l.length
    omega
  · omega

/-! ### Unfolding lemmas for `ComputeStats` -/

theorem computeStats_of_ne (label : String) (results : List QueryResult) (td : ℤ)
    (h : succDurations results ≠ []) :
    ComputeStats label results td =
      { Label := label, Total := results.length,
        Errors := (results.filter (fun r => r.Err.isSome)).length,
        Duration := td,
        QPS := goFloatDiv ((succDurations results).length : ℚ) (durationSeconds td),
        LatencyAvg := Int.tdiv (sortDurations (succDurations results)).sum
          ((sortDurations (succDurations results)).length : ℤ),
        LatencyMin := (sortDurations (succDurations results)).getD 0 0,
        LatencyMax := (sortDurations (succDurations results)).getD
          ((sortDurations (succDurations results)).length - 1) 0,
        LatencyP50 := pct (sortDurations (succDurations results)) 50,
        LatencyP75 := pct (sortDurations (succDurations results)) 75,
        LatencyP90 := pct (sortDurations (succDurations results)) 90,
        LatencyP95 := pct (sortDurations (succDurations results)) 95,
        LatencyP99 := pct (sortDurations (succDurations results)) 99 } := by
  simp only [ComputeStats]
  rw [if_neg (by simpa [List.length_eq_zero] using h)]

theorem computeStats_of_eq (label : String) (results : List QueryResult) (td : ℤ)
    (h : succDurations results = []) :
    ComputeStats label results td =
      { Label := label, Total := results.length,
        Errors := (results.filter (fun r => r.Err.isSome)).length,
        Duration := td, QPS := default, LatencyAvg := 0,
        LatencyMin := 0, LatencyMax := 0, LatencyP50 := 0, LatencyP75 := 0,
        LatencyP90 := 0, LatencyP95 := 0, LatencyP99 := 0 } := by
  simp only [ComputeStats]
  rw [if_pos (by simpa [List.length_eq_zero] using h)]

theorem succDurations_filter (results : List QueryResult) :
    succDurations (results.filter (fun r => r.Err.isNone)) = succDurations results := by
  unfold succDurations
  rw [List.filter_filter]
  simp

/-- C7: for every sample set, `Total` is the full sample count including
errored samples, `Total = Errors + number of successful samples`, and every
latency statistic (QPS, average, min, max, all percentiles) computed from the
sample set equals the one computed from the error-free samples alone: errored
samples contribute to `Errors`/`Total` only. -/
theorem computeStats_total_partition (label : String) (results : List QueryResult) (td : ℤ) :
    (ComputeStats label results td).Total = results.length ∧
    (ComputeStats label results td).Total =
      (ComputeStats label results td).Errors +
        (results.filter (fun r => r.Err.isNone)).length ∧
    (ComputeStats label results td).QPS =
      (ComputeStats label (results.filter (fun r => r.Err.isNone)) td).QPS ∧
    (ComputeStats label results td).LatencyAvg =
      (ComputeStats label (results.filter (fun r => r.Err.isNone)) td).LatencyAvg ∧
    (ComputeStats label results td).LatencyMin =
      (ComputeStats label (results.filter (fun r => r.Err.isNone)) td).LatencyMin ∧
    (ComputeStats label results td).LatencyMax =
      (ComputeStats label (results.filter (fun r => r.Err.isNone)) td).LatencyMax ∧
    (ComputeStats label results td).LatencyP50 =
      (ComputeStats label (results.filter (fun r => r.Err.isNone)) td).LatencyP50 ∧
    (ComputeStats label results td).LatencyP75 =
      (ComputeStats label (results.filter (fun r => r.Err.isNone)) td).LatencyP75 ∧
    (ComputeStats label results td).LatencyP90 =
      (ComputeStats label (results.filter (fun r => r.Err.isNone)) td).LatencyP90 ∧
    (ComputeStats label results td).LatencyP95 =
      (ComputeStats label (results.filter (fun r => r.Err.isNone)) td).LatencyP95 ∧
    (ComputeStats label results td).LatencyP99 =
      (ComputeStats label (results.filter (fun r => r.Err.isNone)) td).LatencyP99 := by
  have hcount : results.length =
      (results.filter (fun r => r.Err.isSome)).length +
        (results.filter (fun r => r.Err.isNone)).length := by
    induction results with
    | nil => rfl
    | cons r rs ih =>
      cases hE : r.Err <;> simp [List.filter, hE, ih] <;> omega
  by_cases h : succDurations results = []
  · have h2 : succDurations (results.filter (fun r => r.Err.isNone)) = [] := by
      rw [succDurations_filter]; exact h
    rw [computeStats_of_eq label results td h,
      computeStats_of_eq label (results.filter (fun r => r.Err.isNone)) td h2]
    refine ⟨rfl, by simpa using hcount, rfl, rfl, rfl, rfl, rfl, rfl, rfl, rfl, rfl⟩
  · have h2 : succDurations (results.filter (fun r => r.Err.isNone)) ≠ [] := by
      rw [succDurations_filter]; exact h
    rw [computeStats_of_ne label results td h,
      computeStats_of_ne label (results.filter (fun r => r.Err.isNone)) td h2,
      succDurations_filter]
    refine ⟨rfl, by simpa using hcount, rfl, rfl, rfl, rfl, rfl, rfl, rfl, rfl, rfl⟩

theorem pct_eq_formula {l : List ℤ} (p : ℚ) (h : l ≠ []) :
    pct l p =
      l.getD (min (max (⌈p / 100 * (l.length : ℚ)⌉ - 1) 0) ((l.length : ℤ) - 1)).toNat 0 := by
  rw [pct, if_neg (by simpa [List.length_eq_zero] using h)]
  rfl

theorem sortDurations_ne_nil {l : List ℤ} (h : l ≠ []) : sortDurations l ≠ [] := by
  intro hnil
  apply h
  have hp := sortDurations_perm l
  rw [hnil] at hp
  exact (hp.symm).eq_nil

/-- C6: for every sample set with at least one successful sample, the
statistics returned by `ComputeStats` satisfy the percentile monotonicity
chain `min ≤ p50 ≤ p75 ≤ p90 ≤ p95 ≤ p99 ≤ max`. -/
theorem computeStats_percentile_monotone (label : String) (results : List QueryResult)
    (td : ℤ) (h : succDurations results ≠ []) :
    (ComputeStats label results td).LatencyMin ≤ (ComputeStats label results td).LatencyP50 ∧
    (ComputeStats label results td).LatencyP50 ≤ (ComputeStats label results td).LatencyP75 ∧
    (ComputeStats label results td).LatencyP75 ≤ (ComputeStats label results td).LatencyP90 ∧
    (ComputeStats label results td).LatencyP90 ≤ (ComputeStats label results td).LatencyP95 ∧
    (ComputeStats label results td).LatencyP95 ≤ (ComputeStats label results td).LatencyP99 ∧
    (ComputeStats label results td).LatencyP99 ≤ (ComputeStats label results td).LatencyMax := by
  have hs := sortDurations_sorted (succDurations results)
  have hne := sortDurations_ne_nil h
  rw [computeStats_of_ne label results td h]
  dsimp only
  exact ⟨getD_zero_le_pct hs hne 50,
    pct_le_pct hs hne (by norm_num) (by norm_num),
    pct_le_pct hs hne (by norm_num) (by norm_num),
    pct_le_pct hs hne (by norm_num) (by norm_num),
    pct_le_pct hs hne (by norm_num) (by norm_num),
    pct_le_getD_last hs hne 99⟩

/-- Witness for C6: the chain holds at a concrete two-sample run. -/
theorem computeStats_percentile_monotone_witness :
    succDurations [⟨3, none⟩, ⟨1, none⟩] ≠ [] ∧
    (ComputeStats "w" [⟨3, none⟩, ⟨1, none⟩] 5).LatencyMin ≤
      (ComputeStats "w" [⟨3, none⟩, ⟨1, none⟩] 5).LatencyP50 :=
  ⟨by decide, (computeStats_percentile_monotone "w" [⟨3, none⟩, ⟨1, none⟩] 5 (by decide)).1⟩

/-- C4: for every sample set with at least one successful sample, each
percentile field of `ComputeStats` is the element of the ascending-sorted
successful-latency list at index `ceil(p/100*n) - 1` clamped to `[0, n-1]`
(nearest-rank selection), and each percentile is itself one of the successful
latency samples, never an interpolated value. -/
theorem computeStats_percentiles_nearest_rank (label : String) (results : List QueryResult)
    (td : ℤ) (h : succDurations results ≠ []) :
    ((ComputeStats label results td).LatencyP50 =
      (sortDurations (succDurations results)).getD
        (min (max (⌈(50 : ℚ) / 100 * ((sortDurations (succDurations results)).length : ℚ)⌉ - 1) 0)
          (((sortDurations (succDurations results)).length : ℤ) - 1)).toNat 0 ∧
     (ComputeStats label results td).LatencyP75 =
      (sortDurations (succDurations results)).getD
        (min (max (⌈(75 : ℚ) / 100 * ((sortDurations (succDurations results)).length : ℚ)⌉ - 1) 0)
          (((sortDurations (succDurations results)).length : ℤ) - 1)).toNat 0 ∧
     (ComputeStats label results td).LatencyP90 =
      (sortDurations (succDurations results)).getD
        (min (max (⌈(90 : ℚ) / 100 * ((sortDurations (succDurations results)).length : ℚ)⌉ - 1) 0)
          (((sortDurations (succDurations results)).length : ℤ) - 1)).toNat 0 ∧
     (ComputeStats label results td).LatencyP95 =
      (sortDurations (succDurations results)).getD
        (min (max (⌈(95 : ℚ) / 100 * ((sortDurations (succDurations results)).length : ℚ)⌉ - 1) 0)
          (((sortDurations (succDurations results)).length : ℤ) - 1)).toNat 0 ∧
     (ComputeStats label results td).LatencyP99 =
      (sortDurations (succDurations results)).getD
        (min (max (⌈(99 : ℚ) / 100 * ((sortDurations (succDurations results)).length : ℚ)⌉ - 1) 0)
          (((sortDurations (succDurations results)).length : ℤ) - 1)).toNat 0) ∧
    ((ComputeStats label results td).LatencyP50 ∈ succDurations results ∧
     (ComputeStats label results td).LatencyP75 ∈ succDurations results ∧
     (ComputeStats label results td).LatencyP90 ∈ succDurations results ∧
     (ComputeStats label results td).LatencyP95 ∈ succDurations results ∧
     (ComputeStats label results td).LatencyP99 ∈ succDurations results) := by
  have hne := sortDurations_ne_nil h
  have hmem : ∀ p : ℚ, pct (sortDurations (succDurations results)) p ∈ succDurations results :=
    fun p => (sortDurations_perm (succDurations results)).mem_iff.mp (pct_mem p hne)
  rw [computeStats_of_ne label results td h]
  dsimp only
  exact ⟨⟨pct_eq_formula 50 hne, pct_eq_formula 75 hne, pct_eq_formula 90 hne,
      pct_eq_formula 95 hne, pct_eq_formula 99 hne⟩,
    hmem 50, hmem 75, hmem 90, hmem 95, hmem 99⟩

/-- Witness for C4: the p50 of a concrete three-sample run is one of the
recorded samples. -/
theorem computeStats_percentiles_nearest_rank_witness :
    succDurations [⟨3, none⟩, ⟨1, none⟩, ⟨2, none⟩] ≠ [] ∧
    (ComputeStats "w" [⟨3, none⟩, ⟨1, none⟩, ⟨2, none⟩] 5).LatencyP50 ∈
      succDurations [⟨3, none⟩, ⟨1, none⟩, ⟨2, none⟩] :=
  ⟨by decide,
    (computeStats_percentiles_nearest_rank "w" [⟨3, none⟩, ⟨1, none⟩, ⟨2, none⟩] 5 (by decide)).2.1⟩

/-- C2 counterexample: with one successful sample of 1ms and a zero total
duration, `ComputeStats` evaluates the float64 division `1 / 0.0` and
reports a QPS of `+Inf` — not zero. -/
theorem computeStats_qps_zero_duration_cex :
    (ComputeStats "run" [⟨1000000, none⟩] 0).QPS = GoFloat.posInf ∧
    GoFloat.posInf ≠ GoFloat.finite 0 := by
  constructor
  · rw [computeStats_of_ne "run" [⟨1000000, none⟩] 0 (by decide)]
    dsimp only
    rw [goFloatDiv, durationSeconds]
    norm_num
    decide
  · decide

/-- C2 amended (theorem): `ComputeStats` sets QPS to the IEEE-754 float64
division `successfulCount / totalDuration-in-seconds`; it never fails, but
it has no zero guard: whenever `totalDuration` is zero and at least one
sample succeeded, the division is evaluated with a zero denominator and QPS
is `+Inf`. -/
theorem computeStats_qps_ieee (label : String) (results : List QueryResult) (td : ℤ)
    (h : succDurations results ≠ []) :
    (ComputeStats label results td).QPS =
      goFloatDiv ((succDurations results).length : ℚ) (durationSeconds td) ∧
    (td = 0 → (ComputeStats label results td).QPS = GoFloat.posInf) := by
  have hq : (ComputeStats label results td).QPS =
      goFloatDiv ((succDurations results).length : ℚ) (durationSeconds td) := by
    rw [computeStats_of_ne label results td h]
  refine ⟨hq, fun htd => ?_⟩
  rw [hq, htd]
  have hlen : 0 < (succDurations results).length := List.length_pos.mpr h
  have hnum : (0 : ℚ) < ((succDurations results).length : ℚ) := by exact_mod_cast hlen
  rw [goFloatDiv, durationSeconds]
  norm_num
  rw [if_neg h, if_pos hlen]

/-- Witness for C2: at a concrete run with one successful sample and a zero
wall-clock duration, the QPS field is `+Inf`. -/
theorem computeStats_qps_ieee_witness :
    succDurations [⟨5, none⟩] ≠ [] ∧
    (ComputeStats "w" [⟨5, none⟩] 0).QPS = GoFloat.posInf :=
  ⟨by decide, (computeStats_qps_ieee "w" [⟨5, none⟩] 0 (by decide)).2 rfl⟩

/-- The statistical median of an odd-length list of integers: the middle
element of the ascending values (the reference definition for claim C5). -/
def medianOfIntList (xs : List ℤ) : ℤ :=
  (xs.insertionSort (· ≤ ·)).getD (xs.length / 2) 0

/-- C5: the multi-run controller selects the representative run by sorting
the runs by p50 ascending and taking the run at index `floor(n/2)` (the
upper median, no interpolation); `MedianStats` of a single run is that run
unchanged; and on an odd-length run set the returned run's p50 is the
statistical median of the runs' p50 values. -/
theorem medianStats_spec :
    (∀ r : BenchStats, MedianStats [r] = some r) ∧
    (∀ runs : List BenchStats, 2 ≤ runs.length →
      MedianStats runs = (sortByP50 runs)[runs.length / 2]? ∧
      (sortByP50 runs).Sorted (fun a b => a.LatencyP50 ≤ b.LatencyP50) ∧
      (sortByP50 runs).Perm runs) ∧
    (∀ runs : List BenchStats, runs ≠ [] → Odd runs.length →
      (MedianStats runs).map (fun r => r.LatencyP50) =
        some (medianOfIntList (runs.map fun r => r.LatencyP50))) := by
  refine ⟨fun r => by simp [MedianStats], fun runs h2 => ?_, fun runs hne hodd => ?_⟩
  · refine ⟨?_, sortByP50_sorted runs, sortByP50_perm runs⟩
    rw [MedianStats, if_neg (by omega)]
  · by_cases h1 : runs.length = 1
    · obtain ⟨r, rfl⟩ := List.length_eq_one.mp h1
      simp [MedianStats, medianOfIntList, List.insertionSort, List.orderedInsert]
    · have hpos : 0 < runs.length := List.length_pos.mpr hne
      have hlen : runs.length / 2 < (sortByP50 runs).length := by
        rw [sortByP50_length]; omega
      have hk2 : runs.length / 2 < ((sortByP50 runs).map (fun r => r.LatencyP50)).length := by
        simpa using hlen
      rw [MedianStats, if_neg h1, List.getElem?_eq_getElem hlen]
      rw [Option.map_some']
      congr 1
      calc (sortByP50 runs)[runs.length / 2].LatencyP50
          = ((sortByP50 runs).map (fun r => r.LatencyP50)).getD (runs.length / 2) 0 := by
            rw [List.getD_eq_getElem?_getD, List.getElem?_eq_getElem hk2, List.getElem_map]
            rfl
        _ = ((runs.map (fun r => r.LatencyP50)).insertionSort (· ≤ ·)).getD
              (runs.length / 2) 0 := by rw [map_p50_sortByP50]
        _ = medianOfIntList (runs.map fun r => r.LatencyP50) := by
            rw [medianOfIntList, List.length_map]

/-- A run whose only nonzero field is its p50 latency (concrete test data). -/
def runP50 (v : ℤ) : BenchStats := { (default : BenchStats) with LatencyP50 := v }

/-- C9: `MedianStats` sorts the caller's slice in place: after a call with
two or more runs the slice holds an ascending-by-p50 permutation of the
original runs, and the summary rows `RunMultiple` prints afterwards are
exactly that sorted slice; a concrete unsorted pair shows the slice is
really permuted, not copied or left alone. -/
theorem medianStats_sorts_in_place :
    (∀ runs : List BenchStats, 2 ≤ runs.length →
      (MedianStatsEffect runs).Perm runs ∧
      (MedianStatsEffect runs).Sorted (fun a b => a.LatencyP50 ≤ b.LatencyP50) ∧
      RunMultipleSummaryRows runs = MedianStatsEffect runs) ∧
    MedianStatsEffect [runP50 2, runP50 1] ≠ [runP50 2, runP50 1] := by
  constructor
  · intro runs h2
    rw [MedianStatsEffect, if_neg (by omega)]
    refine ⟨sortByP50_perm runs, sortByP50_sorted runs, ?_⟩
    rw [RunMultipleSummaryRows, MedianStatsEffect, if_neg (by omega)]
  · decide

/-- C10: `MedianStats` is total only on non-empty run lists: every non-empty
input yields `some` element of the input itself (no field is synthesized),
while the empty list trips the unconditional index access `runs[0]`, modelled
as `none`. -/
theorem medianStats_nonempty_spec :
    (∀ runs : List BenchStats, runs ≠ [] → ∃ r, MedianStats runs = some r ∧ r ∈ runs) ∧
    MedianStats [] = none := by
  constructor
  · intro runs hne
    by_cases h1 : runs.length = 1
    · obtain ⟨r, rfl⟩ := List.length_eq_one.mp h1
      exact ⟨r, by simp [MedianStats], by simp⟩
    · have hpos : 0 < runs.length := List.length_pos.mpr hne
      have hlen : runs.length / 2 < (sortByP50 runs).length := by
        rw [sortByP50_length]; omega
      refine ⟨(sortByP50 runs)[runs.length / 2], ?_, ?_⟩
      · rw [MedianStats, if_neg h1, List.getElem?_eq_getElem hlen]
      · exact (sortByP50_perm runs).mem_iff.mp (List.getElem_mem hlen)
  · decide

/-! ### Helper lemmas for the running-maximum fold of `SteadyState` -/

theorem le_foldl_max (l : List ℚ) (a : ℚ) : a ≤ l.foldl max a := by
  induction l generalizing a with
  | nil => exact le_rfl
  | cons x xs ih => exact le_trans (le_max_left a x) (ih (max a x))

theorem mem_le_foldl_max {l : List ℚ} {x : ℚ} (hx : x ∈ l) (a : ℚ) :
    x ≤ l.foldl max a := by
  induction l generalizing a with
  | nil => cases hx
  | cons y ys ih =>
    rcases List.mem_cons.mp hx with rfl | h
    · exact le_trans (le_max_right a x) (le_foldl_max ys _)
    · exact ih h _

theorem foldl_max_le {l : List ℚ} {a b : ℚ} (ha : a ≤ b) (h : ∀ x ∈ l, x ≤ b) :
    l.foldl max a ≤ b := by
  induction l generalizing a with
  | nil => exact ha
  | cons x xs ih =>
    exact ih (max_le ha (h x (List.mem_cons_self x xs)))
      (fun y hy => h y (List.mem_cons_of_mem x hy))

theorem foldl_max_eq_or_mem (l : List ℚ) (a : ℚ) :
    l.foldl max a = a ∨ l.foldl max a ∈ l := by
  induction l generalizing a with
  | nil => exact Or.inl rfl
  | cons x xs ih =>
    rcases ih (max a x) with h | h
    · rcases max_choice a x with hm | hm
      · exact Or.inl (by rw [List.foldl_cons, h, hm])
      · exact Or.inr (by rw [List.foldl_cons, h, hm]; exact List.mem_cons_self x xs)
    · exact Or.inr (List.mem_cons_of_mem x h)

theorem steadyState_of_mean_ne (runs : List BenchStats) (tolerance : ℚ)
    (h2 : 2 ≤ runs.length) (hm : meanQPS runs ≠ 0) :
    SteadyState runs tolerance = (decide (maxRelDev runs ≤ tolerance), maxRelDev runs) := by
  rw [meanQPS] at hm
  rw [SteadyState, if_neg (by omega)]
  dsimp only
  rw [if_neg hm]
  rw [maxRelDev, meanQPS]

theorem steadyState_of_mean_eq (runs : List BenchStats) (tolerance : ℚ)
    (h2 : 2 ≤ runs.length) (hm : meanQPS runs = 0) :
    SteadyState runs tolerance = (false, 0) := by
  rw [meanQPS] at hm
  rw [SteadyState, if_neg (by omega)]
  dsimp only
  rw [if_pos hm]

/-- C3 counterexample: two runs with equal (both zero) QPS values: the claim
demands deviation `0` and `steady = true`, but `SteadyState` hits its
zero-mean guard and returns `steady = false`. -/
theorem steadyState_all_zero_cex :
    (default : BenchStats).QPS = GoFloat.finite 0 ∧
    SteadyState [default, default] (5 / 100) = (false, 0) := by
  refine ⟨rfl, ?_⟩
  apply steadyState_of_mean_eq _ _ (by decide)
  rw [meanQPS]
  norm_num [ratOfFloat]

/-- C3 amended (theorem): for at least two runs with finite QPS values,
whenever the float mean QPS is nonzero `SteadyState` returns the maximal
relative deviation `|qps - mean| / mean` together with `steady` exactly when
that deviation is at most the tolerance; when the mean is zero it returns
`(false, 0)` instead; the reported value really is the maximum of the
per-run deviations (an upper bound that is attained or zero); and for runs
whose QPS are all equal to the same nonzero value (and a nonnegative
tolerance) it returns deviation `0` and `steady = true`. -/
theorem steadyState_spec :
    (∀ (runs : List BenchStats) (tolerance : ℚ), 2 ≤ runs.length → meanQPS runs ≠ 0 →
      SteadyState runs tolerance = (decide (maxRelDev runs ≤ tolerance), maxRelDev runs)) ∧
    (∀ (runs : List BenchStats) (tolerance : ℚ), 2 ≤ runs.length → meanQPS runs = 0 →
      SteadyState runs tolerance = (false, 0)) ∧
    (∀ runs : List BenchStats,
      (∀ r ∈ runs, |ratOfFloat r.QPS - meanQPS runs| / meanQPS runs ≤ maxRelDev runs) ∧
      (maxRelDev runs = 0 ∨
        ∃ r ∈ runs, maxRelDev runs = |ratOfFloat r.QPS - meanQPS runs| / meanQPS runs)) ∧
    (∀ (runs : List BenchStats) (q tolerance : ℚ), 2 ≤ runs.length →
      (∀ r ∈ runs, r.QPS = GoFloat.finite q) → q ≠ 0 → 0 ≤ tolerance →
      SteadyState runs tolerance = (true, 0)) := by
  refine ⟨steadyState_of_mean_ne, steadyState_of_mean_eq, fun runs => ⟨?_, ?_⟩, ?_⟩
  · intro r hr
    apply mem_le_foldl_max
    exact List.mem_map.mpr ⟨ratOfFloat r.QPS, List.mem_map.mpr ⟨r, hr, rfl⟩, rfl⟩
  · rcases foldl_max_eq_or_mem
      (((runs.map fun r => ratOfFloat r.QPS).map
        fun q => |q - meanQPS runs| / meanQPS runs)) 0 with h | h
    · exact Or.inl h
    · right
      obtain ⟨q, hq, hqe⟩ := List.mem_map.mp h
      obtain ⟨r, hr, rfl⟩ := List.mem_map.mp hq
      exact ⟨r, hr, hqe.symm⟩
  · intro runs q tolerance h2 hall hq htol
    have hqs : runs.map (fun r => ratOfFloat r.QPS) = List.replicate runs.length q := by
      rw [List.eq_replicate_iff]
      refine ⟨List.length_map runs _, fun b hb => ?_⟩
      obtain ⟨r, hr, rfl⟩ := List.mem_map.mp hb
      rw [hall r hr, ratOfFloat]
    have hn : (runs.length : ℚ) ≠ 0 := by
      have h0 : 0 < runs.length := by omega
      exact_mod_cast h0.ne'
    have hmean : meanQPS runs = q := by
      rw [meanQPS, hqs, List.sum_replicate, nsmul_eq_mul, mul_comm, mul_div_assoc,
        div_self hn, mul_one]
    have hdevs : (runs.map fun r => ratOfFloat r.QPS).map
        (fun x => |x - meanQPS runs| / meanQPS runs) = List.replicate runs.length 0 := by
      rw [hqs, List.map_replicate, hmean, sub_self, abs_zero, zero_div]
    have hmax : maxRelDev runs = 0 := by
      rw [maxRelDev, hdevs]
      refine le_antisymm (foldl_max_le le_rfl fun x hx => ?_) (le_foldl_max _ _)
      rw [List.eq_of_mem_replicate hx]
    rw [steadyState_of_mean_ne runs tolerance h2 (by rw [hmean]; exact hq), hmax]
    rw [decide_eq_true htol]

/-- C8: the noisy-neighbor comparison computes the impact as
`(noise.p50 - baseline.p50) / baseline.p50` and classifies it with fixed
thresholds: below 20% the verdict is "ISOLATED", from 20% up to (excluding)
50% it is "MODERATE IMPACT", and from 50% on it is "NOISY NEIGHBOR
DETECTED" (for any baseline with positive p50). -/
theorem printIsolation_thresholds (baseline noise : BenchStats)
    (h : 0 < baseline.LatencyP50) :
    (((noise.LatencyP50 : ℚ) - (baseline.LatencyP50 : ℚ)) / (baseline.LatencyP50 : ℚ) < 1 / 5 ↔
      PrintIsolationVerdict baseline noise = "ISOLATED") ∧
    ((1 / 5 ≤ ((noise.LatencyP50 : ℚ) - (baseline.LatencyP50 : ℚ)) / (baseline.LatencyP50 : ℚ) ∧
      ((noise.LatencyP50 : ℚ) - (baseline.LatencyP50 : ℚ)) / (baseline.LatencyP50 : ℚ) < 1 / 2) ↔
      PrintIsolationVerdict baseline noise = "MODERATE IMPACT") ∧
    (1 / 2 ≤ ((noise.LatencyP50 : ℚ) - (baseline.LatencyP50 : ℚ)) / (baseline.LatencyP50 : ℚ) ↔
      PrintIsolationVerdict baseline noise = "NOISY NEIGHBOR DETECTED") := by
  have hD : ((noise.LatencyP50 - baseline.LatencyP50 : ℤ) : ℚ) / (baseline.LatencyP50 : ℚ) * 100 =
      ((noise.LatencyP50 : ℚ) - (baseline.LatencyP50 : ℚ)) / (baseline.LatencyP50 : ℚ) * 100 := by
    push_cast
    ring
  rw [PrintIsolationVerdict]
  rw [hD]
  set x : ℚ := ((noise.LatencyP50 : ℚ) - (baseline.LatencyP50 : ℚ)) / (baseline.LatencyP50 : ℚ)
    with hxdef
  split_ifs with h1 h2
  · exact ⟨iff_of_true (by linarith) rfl,
      iff_of_false (fun hc => by linarith [hc.1]) (by decide),
      iff_of_false (by intro hc; linarith) (by decide)⟩
  · exact ⟨iff_of_false (by intro hc; linarith) (by decide),
      iff_of_true ⟨by linarith, by linarith⟩ rfl,
      iff_of_false (by intro hc; linarith) (by decide)⟩
  · exact ⟨iff_of_false (by intro hc; linarith) (by decide),
      iff_of_false (fun hc => by linarith [hc.2]) (by decide),
      iff_of_true (by linarith) rfl⟩

/-- A baseline run with p50 of 10 time units (concrete test data). -/
def statBase : BenchStats := { (default : BenchStats) with LatencyP50 := 10 }

/-- An under-noise run with p50 of 17 time units (concrete test data). -/
def statNoise : BenchStats := { (default : BenchStats) with LatencyP50 := 17 }

/-- Witness for C8: a 70% p50 regression is classified as a detected noisy
neighbor. -/
theorem printIsolation_thresholds_witness :
    (0 : ℤ) < statBase.LatencyP50 ∧
    ((1 : ℚ) / 2 ≤
        ((statNoise.LatencyP50 : ℚ) - (statBase.LatencyP50 : ℚ)) / (statBase.LatencyP50 : ℚ) ↔
      PrintIsolationVerdict statBase statNoise = "NOISY NEIGHBOR DETECTED") :=
  ⟨by decide, (printIsolation_thresholds statBase statNoise (by decide)).2.2⟩

theorem range_split_map {α : Type} (a b : ℕ) (f : ℕ → α) (d : α) :
    (List.range (a + b)).map (fun i => if i < a then f i else d) =
      (List.range a).map f ++ List.replicate b d := by
  rw [List.range_add, List.map_append]
  congr 1
  · exact List.map_congr_left fun x hx => if_pos (List.mem_range.mp hx)
  · have hconst : ∀ x ∈ List.range b,
        ((fun i => if i < a then f i else d) ∘ (fun y => a + y)) x = d := by
      intro x hx
      simp only [Function.comp_apply]
      rw [if_neg (by omega)]
    rw [List.map_map, List.map_congr_left hconst, List.map_const', List.length_range]

theorem range_mul_map {α : Type} (c q : ℕ) (f : ℕ → α) :
    (List.range (c * q)).map f =
      (List.range c).flatMap (fun w => (List.range q).map (fun i => f (w * q + i))) := by
  induction c with
  | zero => simp
  | succ c ih =>
    rw [Nat.succ_mul, List.range_add, List.map_append, ih, List.range_succ,
      List.flatMap_append, List.map_map]
    congr 1
    simp [List.flatMap, Function.comp]

/-- C1 amended (theorem): in count-bounded mode with `c ≥ 1` workers, the
run issues exactly `c * floor(Q/c)` operations — each worker issues
`floor(Q/c)` operations recorded at its precomputed global offsets, and the
remaining `Q mod c` operations are never issued — but the sample set handed
to the statistics engine is the whole preallocated slice of length `Q`: the
`c * floor(Q/c)` recorded samples followed by `Q mod c` zero-valued entries
(latency 0, no error), not the recorded samples alone. -/
theorem pgRunQueries_count_partition (params : BenchParams) (lat : ℕ → QueryResult)
    (hc : 1 ≤ params.Concurrency) :
    pgRunQueriesResults params lat =
      (List.range (params.Concurrency * (params.Queries / params.Concurrency))).map lat ++
        List.replicate (params.Queries % params.Concurrency) default ∧
    (List.range (params.Concurrency * (params.Queries / params.Concurrency))).map lat =
      (List.range params.Concurrency).flatMap (pgWorkerResults params lat) ∧
    (∀ w : ℕ, (pgWorkerResults params lat w).length =
      params.Queries / params.Concurrency) ∧
    (pgRunQueriesResults params lat).length = params.Queries ∧
    (∀ (label : String) (td : ℤ), pgRunQueries params lat label td =
      ComputeStats label (pgRunQueriesResults params lat) td) := by
  refine ⟨?_, ?_, fun w => by simp [pgWorkerResults], by simp [pgRunQueriesResults],
    fun _ _ => rfl⟩
  · obtain ⟨m, r, hm, hr, hQ⟩ :
        ∃ m r, m = params.Queries / params.Concurrency ∧
          r = params.Queries % params.Concurrency ∧
          params.Queries = params.Concurrency * m + r :=
      ⟨_, _, rfl, rfl, (Nat.div_add_mod _ _).symm⟩
    rw [pgRunQueriesResults, ← hm, ← hr, hQ]
    exact range_split_map (params.Concurrency * m) r lat default
  · exact range_mul_map params.Concurrency (params.Queries / params.Concurrency) lat

/-- A latency oracle that reports 10 time units and no error for every
operation (concrete test data). -/
def latTen : ℕ → QueryResult := fun _ => ⟨10, none⟩

/-- C1 counterexample: with 5 operations and 2 workers, only `2*floor(5/2)=4`
samples are recorded, yet the slice handed to `ComputeStats` has 5 entries —
the dropped fifth operation contributes a zero-valued sample, so `Total` is
5 and the reported minimum latency is 0 although every recorded sample took
10 units.  This refutes the claim that the statistics engine receives
exactly the recorded samples and nothing else. -/
theorem pgRunQueries_remainder_cex :
    (pgRunQueriesResults ⟨5, 2, 100, 10000⟩ latTen).length = 5 ∧
    (pgRunQueriesResults ⟨5, 2, 100, 10000⟩ latTen).length ≠ 2 * (5 / 2) ∧
    (pgRunQueriesResults ⟨5, 2, 100, 10000⟩ latTen).getD 4 default = default ∧
    (∀ i < 4, (pgRunQueriesResults ⟨5, 2, 100, 10000⟩ latTen).getD i default = ⟨10, none⟩) ∧
    (pgRunQueries ⟨5, 2, 100, 10000⟩ latTen "bench" 1000000000).Total = 5 ∧
    (pgRunQueries ⟨5, 2, 100, 10000⟩ latTen "bench" 1000000000).LatencyMin = 0 := by
  decide

/-- Witness for C1 at 7 operations and 3 workers: 6 recorded samples plus
one zero-valued padding entry reach the statistics engine. -/
theorem pgRunQueries_count_partition_witness :
    1 ≤ (3 : ℕ) ∧
    pgRunQueriesResults ⟨7, 3, 0, 1⟩ latTen =
      (List.range (3 * (7 / 3))).map latTen ++ List.replicate (7 % 3) default :=
  ⟨by decide, (pgRunQueries_count_partition ⟨7, 3, 0, 1⟩ latTen (by decide)).1⟩
